import Mathlib

/-!
Shallow embedding of `src/bot.py` (ECCues catalog chat bot): the catalog
loader's normalization pipeline, the price formatter `clean_price_text`, the
code/keyword matcher `find_by_sku_or_keyword`, the variant detector
`detect_variant`, catalog pagination `build_catalog_page`, and the
text-message router `on_text`, together with theorems settling the
specification claims.

Modelling conventions.  Strings are Lean `String`s; the internals work on
`List Char`.  The character classes of Python's regexes (`\d`, `\w`,
`[A-Za-z]`) are modelled for ASCII text, which covers the product-code
tokens the patterns target.  `pandas.Series.str.contains(key)` interprets
`key` as a regular expression; for keys made of literal characters
(alphanumerics, spaces, hyphens, underscores — the class `litChar`) this
coincides with case-blind substring search, which is how containment is
modelled here.  `str.lower` / `str.strip` are modelled on ASCII letters and
ASCII whitespace via `Char.toLower` / `Char.isWhitespace`.
-/

namespace Eccues

/-- Python `\w` (word character) restricted to ASCII: alphanumerics and underscore. -/
def isWordC (c : Char) : Bool := c.isAlphanum || c == '_'

/-- Characters that a Python regex treats literally (outside character classes):
alphanumerics, space, hyphen, underscore.  On queries made of these,
`pandas.str.contains` coincides with substring search. -/
def litChar (c : Char) : Bool := c.isAlphanum || c == ' ' || c == '-' || c == '_'

/-- Every character of the string is regex-literal (see `litChar`). -/
def litStr (s : String) : Bool := s.data.all litChar

/-- Python `str.lower()` (ASCII model). -/
def lowerStr (l : List Char) : List Char := l.map Char.toLower

/-- Python `str.strip()`: remove leading and trailing whitespace. -/
def pyStrip (l : List Char) : List Char :=
  ((l.dropWhile Char.isWhitespace).reverse.dropWhile Char.isWhitespace).reverse

/-- Python `str.strip()` lifted to `String`. -/
def stripS (s : String) : String := String.mk (pyStrip s.data)

/-- Substring test: does `hay` contain `pat` as a contiguous sublist?
Models `pandas.Series.str.contains(pat)` for regex-literal `pat`
(both sides are expected to be lower-cased by the caller, as in the source). -/
def containsStr (hay pat : List Char) : Bool :=
  hay.tails.any (fun t => pat.isPrefixOf t)

/-- The first maximal run of decimal digits in `s`, as `re.search(r"(\d+)", s)` finds it. -/
def firstDigitRun : List Char → Option (List Char)
  | [] => none
  | c :: rest =>
    if c.isDigit then some (c :: rest.takeWhile Char.isDigit)
    else firstDigitRun rest

/-- Core of `clean_price_text` (bot.py lines 113–119) on character lists:
`if not s: return ""` / `s = str(s).strip()` / first digit run + `" triệu"`,
else the stripped string. -/
def clean_price_list (l : List Char) : List Char :=
  if l = [] then []
  else
    match firstDigitRun (pyStrip l) with
    | none => pyStrip l
    | some d => d ++ " triệu".data

/-- Model of `clean_price_text` (bot.py lines 113–119). -/
def clean_price_text (s : String) : String := String.mk (clean_price_list s.data)

/-- One catalog row after `load_catalog`: the three canonical columns are
guaranteed to exist; any further columns are collected in `extras`. -/
structure Row where
  ma : String
  hang_thuong : String
  cao_cap : String
  extras : List String
deriving DecidableEq

/-- The row's fields, in column order, as scanned by the matcher's
per-column loop. -/
def Row.fields (r : Row) : List String :=
  [r.ma, r.hang_thuong, r.cao_cap] ++ r.extras

/-- Attempt to match the body `[A-Za-z]*\d{2,}[A-Za-z0-9]*\b` at the head of
`l`; returns the token and the remainder.  The trailing `\b` holds iff the
remainder does not start with `'_'` (the remainder's head is non-alphanumeric
by maximality of the runs; shorter backtracked matches always end between two
word characters and hence cannot satisfy `\b`). -/
def tokenAt (l : List Char) : Option (List Char × List Char) :=
  let letters := l.takeWhile Char.isAlpha
  let r1 := l.dropWhile Char.isAlpha
  let digits := r1.takeWhile Char.isDigit
  if digits.length < 2 then none
  else
    let r2 := r1.dropWhile Char.isDigit
    let trail := r2.takeWhile Char.isAlphanum
    let r3 := r2.dropWhile Char.isAlphanum
    if r3.head?.all (fun c => !isWordC c) then some (letters ++ digits ++ trail, r3)
    else none

/-- Scan of `re.search(r"\b([A-Za-z]*\d{2,}[A-Za-z0-9]*)\b", q)`: try each
start position left to right; the leading `\b` reduces to "the previous
character is absent or not a word character", since the body can only start
with a word character. -/
def findTokenAux : Option Char → List Char → Option (List Char)
  | _, [] => none
  | prev, c :: rest =>
    if prev.all (fun p => !isWordC p) then
      match tokenAt (c :: rest) with
      | some (tok, _) => some tok
      | none => findTokenAux (some c) rest
    else findTokenAux (some c) rest

/-- The first code-pattern token of the query (bot.py line 127). -/
def find_code_token (l : List Char) : Option (List Char) := findTokenAux none l

/-- Does any field of the row contain `key` (already lower-cased) as a
case-insensitive substring?  Models the per-column mask union of bot.py
lines 130–135 / 141–146. -/
def rowMatches (key : List Char) (r : Row) : Bool :=
  r.fields.any (fun f => containsStr (lowerStr f.data) key)

/-- Model of `find_by_sku_or_keyword` (bot.py lines 121–150): code-pattern phase on the
raw query, falling back to a keyword phase on the lower-cased full query. -/
def find_by_sku_or_keyword (q : String) (rows : List Row) : Option Row :=
  if rows.isEmpty then none
  else
    match find_code_token q.data with
    | some tok =>
      match rows.find? (fun r => rowMatches (lowerStr tok) r) with
      | some r => some r
      | none => rows.find? (fun r => rowMatches (lowerStr q.data) r)
    | none => rows.find? (fun r => rowMatches (lowerStr q.data) r)

/-- The key the matcher effectively searches for when given query `q`:
the lower-cased first code-pattern token if one exists, else the
lower-cased full query. -/
def matchKey (q : String) : List Char :=
  match find_code_token q.data with
  | some tok => lowerStr tok
  | none => lowerStr q.data

/-! ### Static texts and menu labels (bot.py lines 43–72, 272) -/

def MENU_catalog : String := "📋 Danh sách sản phẩm"

def MENU_warranty : String := "🛡️ Chế độ bảo hành"

def MENU_leadtime : String := "⏳ Thời gian sản xuất"

def MENU_contact : String := "📞 Liên hệ"

def WARRANTY_TEXT : String :=
  "🛡️ *Chế độ bảo hành*\n- Hàng cao cấp: cam kết chất lượng giống chính hãng >95%\n- Hàng trung bình: >90%\n- Zen: >90%\n- Sơn lại miễn phí 1 lần (thời gian không quá 1 năm)"

def LEADTIME_TEXT : String := "⏳ *Thời gian sản xuất*: thường 3–4 tháng (tuỳ mẫu)."

def CONTACT_TEXT : String :=
  "📞 *Liên hệ chốt đơn*\nTelegram: @eccues\nFacebook: https://www.facebook.com/ord.exc"

def FALLBACK_TEXT : String := "Gửi mã hoặc tên mẫu để báo giá Thường/Cao cấp."

/-! ### `make_price_line` (bot.py lines 152–159) -/

/-- The display code: stripped `ma`, or `"(không mã)"` when blank. -/
def displayMa (r : Row) : String :=
  let t := pyStrip r.ma.data
  if t = [] then "(không mã)" else String.mk t

/-- Model of `make_price_line` (bot.py lines 152–159). -/
def make_price_line (r : Row) : String :=
  let ma := displayMa r
  let ht := clean_price_text r.hang_thuong
  let cc := clean_price_text r.cao_cap
  let parts := [ma ++ ":"]
    ++ (if ht = "" then [] else ["Thường " ++ ht ++ "."])
    ++ (if cc = "" then [] else ["Cao cấp " ++ cc ++ "."])
  String.mk (pyStrip (String.intercalate " " parts).data)

/-! ### `detect_variant` (bot.py lines 161–166)

`re.search(r"\b(cao\s*cấp|cao cap)\b", t)` and `re.search(r"\b(thường|thuong)\b", t)`
on the lower-cased text.  Both alternatives of each group begin and end with a
word character, so the leading `\b` reduces to "previous character absent or
non-word" and the trailing `\b` to "next character absent or non-word"; the
greedy `\s*` needs no backtracking because `'c'` is not whitespace. -/

/-- Match a literal character sequence at the head of `l`, returning the remainder. -/
def litMatch (pat l : List Char) : Option (List Char) :=
  if pat.isPrefixOf l then some (l.drop pat.length) else none

/-- Trailing `\b` after a word character: remainder empty or starting non-word. -/
def endBd (r : List Char) : Bool := r.head?.all (fun c => !isWordC c)

/-- Does `cao\s*cấp|cao cap` followed by `\b` match at the head of `l`? -/
def caoCapHit (l : List Char) : Bool :=
  (match litMatch "cao".data l with
   | some r1 =>
     match litMatch "cấp".data (r1.dropWhile Char.isWhitespace) with
     | some r2 => endBd r2
     | none => false
   | none => false) ||
  (match litMatch "cao cap".data l with
   | some r => endBd r
   | none => false)

/-- Does `thường|thuong` followed by `\b` match at the head of `l`? -/
def thuongHit (l : List Char) : Bool :=
  (match litMatch "thường".data l with
   | some r => endBd r
   | none => false) ||
  (match litMatch "thuong".data l with
   | some r => endBd r
   | none => false)

/-- Scan loop of `re.search` for a pattern whose first matched character is a word
character: try each position whose previous character is absent or non-word. -/
def searchAux (hit : List Char → Bool) : Option Char → List Char → Bool
  | _, [] => false
  | prev, c :: rest =>
    (prev.all (fun p => !isWordC p) && hit (c :: rest)) || searchAux hit (some c) rest

/-- Model of `detect_variant` (bot.py lines 161–166). -/
def detect_variant (txt : String) : Option String :=
  let t := lowerStr txt.data
  if searchAux caoCapHit none t then some "cao_cap"
  else if searchAux thuongHit none t then some "hang_thuong"
  else none

/-! ### Pagination (bot.py lines 169–190) -/

def PAGE_SIZE : Int := 10

/-- The chat-facing content of one catalog page: the text plus whether the
"previous"/"next" inline buttons are attached (bot.py lines 184–189). -/
structure Page where
  text : String
  hasPrev : Bool
  hasNext : Bool
deriving DecidableEq

/-- Render the page at an already-clamped page number `p` (bot.py lines 177–190). -/
def render_page (rows : List Row) (p : Int) : Page :=
  let m := ((rows.length : Int) + PAGE_SIZE - 1) / PAGE_SIZE
  let chunk := (rows.drop ((p - 1) * PAGE_SIZE).toNat).take PAGE_SIZE.toNat
  { text := "📚 Trang " ++ toString p ++ "/" ++ toString m ++ " — Tổng "
      ++ toString rows.length ++ " SP" ++ "\n"
      ++ String.intercalate "\n" (chunk.map make_price_line)
    hasPrev := decide (1 < p)
    hasNext := decide (p < m) }

/-- Model of `build_catalog_page` (bot.py lines 171–190): empty-catalog message, else
clamp the requested page into `[1, max_page]` and render. -/
def build_catalog_page (rows : List Row) (page : Int) : Page :=
  if rows.length = 0 then { text := "Danh mục trống.", hasPrev := false, hasNext := false }
  else render_page rows (max 1 (min page (((rows.length : Int) + PAGE_SIZE - 1) / PAGE_SIZE)))

/-! ### The text-message router `on_text` (bot.py lines 239–272)

The per-user conversation state relevant to `on_text` is
`context.user_data["last_product"]`, modelled as an `Option String`
(`none` when the key is absent).  The router returns the reply text and the
new state. -/

/-- The stored product display name (bot.py line 268). -/
def storedName (r : Row) : String :=
  let t := pyStrip r.ma.data
  if t = [] then "mẫu đã chọn" else String.mk t

/-- The contact-handoff reply (bot.py lines 256–259). -/
def handoff_text (variant lp : String) : String :=
  "Bạn chọn " ++ (if variant = "cao_cap" then "Cao cấp" else "Thường")
    ++ " cho " ++ lp ++ ".\n\n" ++ CONTACT_TEXT

/-- Matcher lookup and fallback (bot.py lines 263–272). -/
def lookupOrFallback (text : String) (last_product : Option String) (catalog : List Row) :
    String × Option String :=
  match find_by_sku_or_keyword text catalog with
  | some row => (make_price_line row, some (storedName row))
  | none => (FALLBACK_TEXT, last_product)

/-- Model of `on_text` (bot.py lines 239–272).  Python's `if variant and last_product`
is truthiness-tested, so an empty stored string behaves like no stored
product. -/
def on_text (msg : String) (last_product : Option String) (catalog : List Row) :
    String × Option String :=
  if stripS msg = MENU_catalog then ((build_catalog_page catalog 1).text, last_product)
  else if stripS msg = MENU_warranty then (WARRANTY_TEXT, last_product)
  else if stripS msg = MENU_leadtime then (LEADTIME_TEXT, last_product)
  else if stripS msg = MENU_contact then (CONTACT_TEXT, last_product)
  else
    match detect_variant (stripS msg) with
    | some v =>
      match last_product with
      | some lp =>
        if lp = "" then lookupOrFallback (stripS msg) last_product catalog
        else (handoff_text v lp, none)
      | none => lookupOrFallback (stripS msg) last_product catalog
    | none => lookupOrFallback (stripS msg) last_product catalog

/-- The four menu labels do not occur in `text`. -/
def NotMenu (text : String) : Prop :=
  text ≠ MENU_catalog ∧ text ≠ MENU_warranty ∧ text ≠ MENU_leadtime ∧ text ≠ MENU_contact

instance (text : String) : Decidable (NotMenu text) := by
  unfold NotMenu; infer_instance

/-! ### Catalog loading (bot.py lines 75–109)

`pd.read_csv` under the encoding-priority loop is the I/O boundary; it is
represented by the `parsed` argument of `load_catalog`: `some t` when some
encoding parses the file into the table `t`, `none` when every attempt fails
(in which case the source continues with `pd.DataFrame()` after logging a
warning — it does not raise).  The normalization that follows (lines 88–109)
is modelled exactly. -/

/-- A parsed tabular file: header names plus rows of cells.  `Rect` states the
shape invariant pandas guarantees (each row has one cell per column). -/
structure Table where
  names : List String
  rows : List (List String)
deriving DecidableEq

/-- Every row has exactly one cell per column. -/
def Rect (t : Table) : Prop := ∀ r ∈ t.rows, r.length = t.names.length

instance (t : Table) : Decidable (Rect t) := by
  unfold Rect; infer_instance

/-- Header whitespace strip, `df.columns = [str(c).strip() for c in df.columns]` (line 88). -/
def stripNames (t : Table) : Table :=
  { t with names := t.names.map (fun n => String.mk (pyStrip n.data)) }

/-- Placeholder-header test `df.columns.str.contains("^Unnamed", case=False)` (line 89): the anchored
case-insensitive pattern holds iff the lower-cased name starts with
`"unnamed"`. -/
def isUnnamed (n : String) : Bool := "unnamed".data.isPrefixOf (lowerStr n.data)

/-- Keep the entries of `l` whose positions are marked `true` in `mask`. -/
def applyMask (mask : List Bool) (l : List String) : List String :=
  (mask.zip l).filterMap (fun p => if p.1 then some p.2 else none)

/-- Drop the `Unnamed` placeholder columns (line 89). -/
def dropUnnamed (t : Table) : Table :=
  let mask := t.names.map (fun n => !isUnnamed n)
  { names := applyMask mask t.names, rows := t.rows.map (applyMask mask) }

/-- The header synonym map (lines 92–100), in source order. -/
def RENAME : List (String × String) :=
  [("Mã", "ma"), ("Hàng thường", "hang_thuong"), ("Hàng th??ng", "hang_thuong"),
   ("Cao cấp", "cao_cap"), ("Cao c?p", "cao_cap"),
   ("Thời gian làm", "thoi_gian_lam"), ("Th?i gian làm", "thoi_gian_lam")]

/-- Apply the synonym map to one header name; the sequential per-key renames
of lines 101–103 act independently on each name. -/
def renameName (n : String) : String :=
  RENAME.foldl (fun m kv => if m = kv.1 then kv.2 else m) n

/-- Rename all headers (lines 101–103). -/
def applyRenames (ns : List String) : List String := ns.map renameName

/-- Column default `df[c] = ""` when column `c` is missing (lines 106–108): append the column,
broadcasting the empty string to every existing row. -/
def addCol (c : String) (t : Table) : Table :=
  if c ∈ t.names then t
  else { names := t.names ++ [c], rows := t.rows.map (fun r => r ++ [""]) }

def canonicalCols : List String := ["ma", "hang_thuong", "cao_cap"]

/-- Ensure the three canonical columns exist (lines 106–108). -/
def ensureCols (t : Table) : Table :=
  addCol "cao_cap" (addCol "hang_thuong" (addCol "ma" t))

/-- The table after header cleanup and renaming, before the canonical columns
are force-added. -/
def preEnsure (t : Table) : Table :=
  { names := applyRenames (dropUnnamed (stripNames t)).names
    rows := (dropUnnamed (stripNames t)).rows }

/-- The full normalization of lines 88–109. -/
def normalize_catalog (t : Table) : Table := ensureCols (preEnsure t)

/-- Model of `load_catalog` (bot.py lines 75–109); see the section comment for the
meaning of `parsed`. -/
def load_catalog (parsed : Option Table) : Table :=
  normalize_catalog (parsed.getD { names := [], rows := [] })

/-! ### Concrete test data (from the spec's Scenario A, plus counterexamples) -/

/-- Scenario A's catalog row. -/
def demoRow : Row := { ma := "Exc0601", hang_thuong := "17m", cao_cap := "22", extras := [] }

/-- A row whose `ma` field contains the digit token `0601` of `cexRowB`'s code. -/
def cexRowA : Row := { ma := "A0601", hang_thuong := "", cao_cap := "", extras := [] }

/-- A row with a hyphenated code, from which the token scanner extracts `0601`. -/
def cexRowB : Row := { ma := "Exc-0601", hang_thuong := "", cao_cap := "", extras := [] }

/-- A row matching the code token `Ace2187`. -/
def c2Row : Row := { ma := "Ace2187", hang_thuong := "20", cao_cap := "25", extras := [] }

/-- A raw parsed table with a padded header, an `Unnamed` placeholder column,
and an extra column. -/
def demoTable : Table :=
  { names := [" Mã ", "Unnamed: 0", "Ghi chú"], rows := [["Exc0601", "x", "note"]] }

/-! ## Helper lemmas -/

theorem isPrefixOf_iff_exists {l₁ l₂ : List Char} :
    l₁.isPrefixOf l₂ = true ↔ ∃ t, l₂ = l₁ ++ t := by
  induction l₁ generalizing l₂ with
  | nil => simp [List.isPrefixOf]
  | cons a as ih =>
    cases l₂ with
    | nil => simp [List.isPrefixOf]
    | cons b bs =>
      simp only [List.isPrefixOf, Bool.and_eq_true, beq_iff_eq, ih, List.cons_append,
        List.cons.injEq]
      constructor
      · rintro ⟨rfl, t, rfl⟩; exact ⟨t, rfl, rfl⟩
      · rintro ⟨t, rfl, rfl⟩; exact ⟨rfl, t, rfl⟩

theorem containsStr_iff {hay pat : List Char} :
    containsStr hay pat = true ↔ ∃ s t, hay = s ++ pat ++ t := by
  unfold containsStr
  rw [List.any_eq_true]
  constructor
  · rintro ⟨u, hu, hp⟩
    obtain ⟨t, rfl⟩ := isPrefixOf_iff_exists.mp hp
    obtain ⟨s, rfl⟩ := (List.mem_tails _ _).mp hu
    exact ⟨s, t, by simp⟩
  · rintro ⟨s, t, rfl⟩
    refine ⟨pat ++ t, ?_, ?_⟩
    · exact (List.mem_tails _ _).mpr ⟨s, by simp⟩
    · exact isPrefixOf_iff_exists.mpr ⟨t, rfl⟩

theorem containsStr_self (l : List Char) : containsStr l l = true :=
  containsStr_iff.mpr ⟨[], [], by simp⟩

theorem containsStr_nil (l : List Char) : containsStr l [] = true :=
  containsStr_iff.mpr ⟨[], l, by simp⟩

theorem lowerStr_append (a b : List Char) :
    lowerStr (a ++ b) = lowerStr a ++ lowerStr b := List.map_append _ _ _

theorem tokenAt_decomp {l tok r : List Char} (h : tokenAt l = some (tok, r)) :
    l = tok ++ r := by
  unfold tokenAt at h
  by_cases hd : (List.takeWhile Char.isDigit (List.dropWhile Char.isAlpha l)).length < 2
  · simp [hd] at h
  · simp only [hd, if_false] at h
    by_cases hb : (List.dropWhile Char.isAlphanum
        (List.dropWhile Char.isDigit (List.dropWhile Char.isAlpha l))).head?.all
        (fun c => !isWordC c) = true
    · simp only [hb, if_true, Option.some.injEq, Prod.mk.injEq] at h
      obtain ⟨rfl, rfl⟩ := h
      have h1 := List.takeWhile_append_dropWhile Char.isAlpha l
      have h2 := List.takeWhile_append_dropWhile Char.isDigit (List.dropWhile Char.isAlpha l)
      have h3 := List.takeWhile_append_dropWhile Char.isAlphanum
        (List.dropWhile Char.isDigit (List.dropWhile Char.isAlpha l))
      conv_lhs => rw [← h1, ← h2, ← h3]
      simp [List.append_assoc]
    · simp [hb] at h

theorem findTokenAux_decomp {prev : Option Char} {l tok : List Char}
    (h : findTokenAux prev l = some tok) : ∃ s t, l = s ++ tok ++ t := by
  induction l generalizing prev with
  | nil => simp [findTokenAux] at h
  | cons c rest ih =>
    unfold findTokenAux at h
    by_cases hb : prev.all (fun p => !isWordC p) = true
    · simp only [hb, if_true] at h
      rcases htok : tokenAt (c :: rest) with _ | ⟨t2, r2⟩
      · rw [htok] at h
        obtain ⟨s, t, hst⟩ := ih h
        exact ⟨c :: s, t, by simp [hst]⟩
      · rw [htok] at h
        obtain rfl : t2 = tok := by simpa using h
        exact ⟨[], r2, by simpa using tokenAt_decomp htok⟩
    · simp only [hb, if_false] at h
      obtain ⟨s, t, hst⟩ := ih h
      exact ⟨c :: s, t, by simp [hst]⟩

theorem find_code_token_decomp {l tok : List Char} (h : find_code_token l = some tok) :
    ∃ s t, l = s ++ tok ++ t := findTokenAux_decomp h

/-- A `find?` call returns a hit no later than any position known to satisfy the
predicate. -/
theorem find?_first {α : Type} {p : α → Bool} :
    ∀ (l : List α) (i : Nat) (r : α), l[i]? = some r → p r = true →
      ∃ j r', j ≤ i ∧ l[j]? = some r' ∧ l.find? p = some r' ∧ p r' = true := by
  intro l
  induction l with
  | nil => intro i r h; simp at h
  | cons c t ih =>
    intro i r hget hp
    by_cases hc : p c = true
    · exact ⟨0, c, Nat.zero_le _, by simp, by simp [List.find?_cons, hc], hc⟩
    · cases i with
      | zero =>
        simp only [List.getElem?_cons_zero, Option.some.injEq] at hget
        subst hget; exact absurd hp hc
      | succ i' =>
        rw [List.getElem?_cons_succ] at hget
        obtain ⟨j, r', hj, hg', hf', hp'⟩ := ih i' r hget hp
        refine ⟨j + 1, r', Nat.succ_le_succ hj, by simpa using hg', ?_, hp'⟩
        simp [List.find?_cons, hc, hf']

/-! ### Whitespace, digits, and `pyStrip` -/

theorem ws_not_digit {c : Char} (h : c.isWhitespace = true) : c.isDigit = false := by
  simp only [Char.isWhitespace, Bool.or_eq_true, decide_eq_true_eq] at h
  rcases h with ((h | h) | h) | h <;> subst h <;> decide

theorem firstDigitRun_eq_none_iff {l : List Char} :
    firstDigitRun l = none ↔ ∀ c ∈ l, c.isDigit = false := by
  induction l with
  | nil => simp [firstDigitRun]
  | cons c t ih =>
    by_cases hc : c.isDigit = true
    · simp [firstDigitRun, hc]
    · simp only [Bool.not_eq_true] at hc
      simp [firstDigitRun, hc, ih]

theorem takeWhile_append_eq_left {p : Char → Bool} {l₂ : List Char}
    (h : ∀ c ∈ l₂, p c = false) :
    ∀ l₁ : List Char, List.takeWhile p (l₁ ++ l₂) = List.takeWhile p l₁ := by
  intro l₁
  induction l₁ with
  | nil =>
    simp only [List.nil_append, List.takeWhile_nil]
    cases l₂ with
    | nil => rfl
    | cons b bs => simp [List.takeWhile_cons, h b (by simp)]
  | cons a as ih =>
    by_cases ha : p a = true
    · simp [List.takeWhile_cons, ha, ih]
    · simp only [Bool.not_eq_true] at ha
      simp [List.takeWhile_cons, ha]

theorem firstDigitRun_append_eq_left {l₁ l₂ : List Char}
    (h : ∀ c ∈ l₂, c.isDigit = false) (hne : firstDigitRun l₁ ≠ none) :
    firstDigitRun (l₁ ++ l₂) = firstDigitRun l₁ := by
  induction l₁ with
  | nil => simp [firstDigitRun] at hne
  | cons c t ih =>
    by_cases hc : c.isDigit = true
    · simp only [List.cons_append, firstDigitRun, hc, if_true, List.append_eq]
      rw [takeWhile_append_eq_left h]
    · simp only [Bool.not_eq_true] at hc
      simp only [List.cons_append, firstDigitRun, hc] at *
      exact ih hne

theorem firstDigitRun_dropWhile_ws (l : List Char) :
    firstDigitRun (l.dropWhile Char.isWhitespace) = firstDigitRun l := by
  induction l with
  | nil => rfl
  | cons c t ih =>
    by_cases hw : c.isWhitespace = true
    · rw [List.dropWhile_cons, if_pos hw, ih]
      have : c.isDigit = false := ws_not_digit hw
      simp [firstDigitRun, this]
    · simp only [Bool.not_eq_true] at hw
      rw [List.dropWhile_cons, if_neg (by simp [hw])]

theorem pyStrip_decomp (l : List Char) :
    ∃ w, l.dropWhile Char.isWhitespace = pyStrip l ++ w ∧
      ∀ c ∈ w, c.isWhitespace = true := by
  set m := l.dropWhile Char.isWhitespace with hm
  refine ⟨(List.takeWhile Char.isWhitespace m.reverse).reverse, ?_, ?_⟩
  · unfold pyStrip
    rw [← hm]
    conv_lhs => rw [← List.reverse_reverse m]
    rw [← List.reverse_append]
    congr 1
    rw [List.takeWhile_append_dropWhile]
  · intro c hc
    rw [List.mem_reverse] at hc
    exact List.mem_takeWhile_imp hc

theorem firstDigitRun_pyStrip (l : List Char) :
    firstDigitRun (pyStrip l) = firstDigitRun l := by
  obtain ⟨w, hw, hws⟩ := pyStrip_decomp l
  have hwd : ∀ c ∈ w, c.isDigit = false := fun c hc => ws_not_digit (hws c hc)
  by_cases hn : firstDigitRun (pyStrip l) = none
  · rw [hn, ← firstDigitRun_dropWhile_ws l, hw]
    symm
    rw [firstDigitRun_eq_none_iff]
    intro c hc
    rcases List.mem_append.mp hc with h | h
    · exact firstDigitRun_eq_none_iff.mp hn c h
    · exact hwd c h
  · rw [← firstDigitRun_dropWhile_ws l, hw, firstDigitRun_append_eq_left hwd hn]

theorem firstDigitRun_shape {l d : List Char} (h : firstDigitRun l = some d) :
    ∃ c t, d = c :: t ∧ c.isDigit = true ∧ ∀ x ∈ t, x.isDigit = true := by
  induction l with
  | nil => simp [firstDigitRun] at h
  | cons c rest ih =>
    by_cases hc : c.isDigit = true
    · simp only [firstDigitRun, hc, if_true, Option.some.injEq] at h
      exact ⟨c, List.takeWhile Char.isDigit rest, h.symm, hc,
        fun x hx => List.mem_takeWhile_imp hx⟩
    · simp only [Bool.not_eq_true] at hc
      simp only [firstDigitRun, hc] at h
      exact ih h

theorem pyStrip_of_ends {l : List Char} (h1 : ∀ c, l.head? = some c → c.isWhitespace = false)
    (h2 : ∀ c, l.reverse.head? = some c → c.isWhitespace = false) :
    pyStrip l = l := by
  unfold pyStrip
  have hd : l.dropWhile Char.isWhitespace = l := by
    cases l with
    | nil => rfl
    | cons a as => rw [List.dropWhile_cons, if_neg (by simp [h1 a rfl])]
  rw [hd]
  have hr : l.reverse.dropWhile Char.isWhitespace = l.reverse := by
    cases hrev : l.reverse with
    | nil => rfl
    | cons a as =>
      rw [List.dropWhile_cons, if_neg ?_]
      simp [h2 a (by rw [hrev]; rfl)]
  rw [hr, List.reverse_reverse]

theorem pyStrip_eq_nil_of_ws {l : List Char} (h : ∀ c ∈ l, c.isWhitespace = true) :
    pyStrip l = [] := by
  have hd : l.dropWhile Char.isWhitespace = [] := by
    induction l with
    | nil => rfl
    | cons a as ih =>
      rw [List.dropWhile_cons, if_pos (h a (by simp))]
      exact ih (fun c hc => h c (by simp [hc]))
  unfold pyStrip
  rw [hd]
  rfl

theorem takeWhile_all_append {p : Char → Bool} {l₁ : List Char}
    (h : ∀ c ∈ l₁, p c = true) (l₂ : List Char) :
    List.takeWhile p (l₁ ++ l₂) = l₁ ++ List.takeWhile p l₂ := by
  induction l₁ with
  | nil => simp
  | cons a as ih =>
    rw [List.cons_append, List.takeWhile_cons, if_pos (h a (by simp))]
    rw [ih (fun c hc => h c (by simp [hc]))]
    rfl

theorem digit_not_ws {c : Char} (h : c.isDigit = true) : c.isWhitespace = false := by
  by_contra hw
  simp only [Bool.not_eq_false] at hw
  rw [ws_not_digit hw] at h
  exact Bool.false_ne_true h

/-! ### Behaviour of `clean_price_list` -/

theorem clean_price_list_of_run {l d : List Char} (h : firstDigitRun l = some d) :
    clean_price_list l = d ++ " triệu".data := by
  have hne : l ≠ [] := by rintro rfl; simp [firstDigitRun] at h
  unfold clean_price_list
  rw [if_neg hne, firstDigitRun_pyStrip, h]

theorem clean_price_list_of_none {l : List Char} (h : firstDigitRun l = none) :
    clean_price_list l = pyStrip l := by
  by_cases hl : l = []
  · subst hl; rfl
  · unfold clean_price_list
    rw [if_neg hl, firstDigitRun_pyStrip, h]

theorem clean_price_list_of_ws {l : List Char} (h : ∀ c ∈ l, c.isWhitespace = true) :
    clean_price_list l = [] := by
  have hn : firstDigitRun l = none :=
    firstDigitRun_eq_none_iff.mpr (fun c hc => ws_not_digit (h c hc))
  rw [clean_price_list_of_none hn, pyStrip_eq_nil_of_ws h]

theorem clean_price_list_idem {l d : List Char} (h : firstDigitRun l = some d) :
    clean_price_list (clean_price_list l) = clean_price_list l := by
  rw [clean_price_list_of_run h]
  obtain ⟨c, t, rfl, hc, ht⟩ := firstDigitRun_shape h
  have hne : (c :: t) ++ " triệu".data ≠ [] := by simp
  have hstrip : pyStrip ((c :: t) ++ " triệu".data) = (c :: t) ++ " triệu".data := by
    apply pyStrip_of_ends
    · intro x hx
      simp only [List.cons_append, List.head?_cons, Option.some.injEq] at hx
      subst hx
      exact digit_not_ws hc
    · intro x hx
      rw [List.reverse_append] at hx
      have hrev : (" triệu".data).reverse = ['u', 'ệ', 'i', 'r', 't', ' '] := by decide
      rw [hrev] at hx
      simp only [List.cons_append, List.head?_cons, Option.some.injEq] at hx
      subst hx
      decide
  have hrun : firstDigitRun ((c :: t) ++ " triệu".data) = some (c :: t) := by
    simp only [List.cons_append, firstDigitRun, hc, if_true, Option.some.injEq,
      List.append_eq]
    rw [takeWhile_all_append ht]
    have : List.takeWhile Char.isDigit " triệu".data = [] := by decide
    rw [this, List.append_nil]
  unfold clean_price_list
  rw [if_neg hne, hstrip, hrun]

theorem any_digit_run_isSome {l : List Char} (h : l.any Char.isDigit = true) :
    ∃ d, firstDigitRun l = some d := by
  rcases hr : firstDigitRun l with _ | d
  · obtain ⟨c, hc, hd⟩ := List.any_eq_true.mp h
    rw [firstDigitRun_eq_none_iff.mp hr c hc] at hd
    exact absurd hd (by simp)
  · exact ⟨d, rfl⟩

/-! ### Matcher lemmas -/

theorem containsStr_of_decomp {hay pat s t : List Char} (h : hay = s ++ pat ++ t) :
    containsStr hay pat = true := containsStr_iff.mpr ⟨s, t, h⟩

/-- The query's own `ma` field matches the key whenever the key comes from a
decomposition of `ma` itself. -/
theorem rowMatches_of_ma {key : List Char} {r : Row}
    (h : containsStr (lowerStr r.ma.data) key = true) : rowMatches key r = true := by
  unfold rowMatches Row.fields
  rw [List.any_eq_true]
  exact ⟨r.ma, by simp, h⟩

/-- A row matches the matcher's effective key for a query equal to its own
`ma` field. -/
theorem rowMatches_matchKey_self (r : Row) : rowMatches (matchKey r.ma) r = true := by
  unfold matchKey
  rcases htok : find_code_token r.ma.data with _ | tok
  · exact rowMatches_of_ma (containsStr_of_decomp (s := []) (t := []) (by simp))
  · obtain ⟨s, t, hst⟩ := find_code_token_decomp htok
    refine rowMatches_of_ma (containsStr_of_decomp (s := lowerStr s) (t := lowerStr t) ?_)
    rw [hst, lowerStr_append, lowerStr_append]

/-- When the code-pattern phase has a token and some row matches it, the
matcher returns the first token-matching row (never consulting the keyword
phase). -/
theorem find_by_token_phase {q : String} {tok : List Char} {rows : List Row}
    (htok : find_code_token q.data = some tok)
    (hex : ∃ r ∈ rows, rowMatches (lowerStr tok) r = true) :
    find_by_sku_or_keyword q rows =
      rows.find? (fun r => rowMatches (lowerStr tok) r) ∧
    (rows.find? (fun r => rowMatches (lowerStr tok) r)).isSome = true := by
  have hsome : (rows.find? (fun r => rowMatches (lowerStr tok) r)).isSome = true :=
    List.find?_isSome.mpr hex
  refine ⟨?_, hsome⟩
  rcases rows with _ | ⟨r0, rest⟩
  · obtain ⟨r, hr, _⟩ := hex
    exact absurd hr (by simp)
  · unfold find_by_sku_or_keyword
    simp only [List.isEmpty_cons, Bool.false_eq_true, if_false, htok]
    rcases hf : (r0 :: rest).find? (fun r => rowMatches (lowerStr tok) r) with _ | r
    · rw [hf] at hsome; exact absurd hsome (by simp)
    · rfl

/-- When the query has no code-pattern token, the result is exactly the
keyword-phase result. -/
theorem find_by_keyword_phase {q : String} {rows : List Row}
    (htok : find_code_token q.data = none) :
    find_by_sku_or_keyword q rows =
      rows.find? (fun r => rowMatches (lowerStr q.data) r) := by
  unfold find_by_sku_or_keyword
  rcases rows with _ | ⟨r, rest⟩
  · rfl
  · rw [htok]; rfl

/-! ### Router lemmas -/

theorem on_text_handoff {msg code : String} {catalog : List Row} {v : String}
    (hm : NotMenu (stripS msg)) (hv : detect_variant (stripS msg) = some v)
    (hc : code ≠ "") :
    on_text msg (some code) catalog = (handoff_text v code, none) := by
  obtain ⟨h1, h2, h3, h4⟩ := hm
  unfold on_text
  rw [if_neg h1, if_neg h2, if_neg h3, if_neg h4, hv]
  simp [hc]

theorem on_text_fallback {msg : String} {st : Option String} {catalog : List Row}
    (hm : NotMenu (stripS msg))
    (hv : detect_variant (stripS msg) = none ∨ st = none)
    (hmatch : find_by_sku_or_keyword (stripS msg) catalog = none) :
    on_text msg st catalog = (FALLBACK_TEXT, st) := by
  obtain ⟨h1, h2, h3, h4⟩ := hm
  have hlk : lookupOrFallback (stripS msg) st catalog = (FALLBACK_TEXT, st) := by
    unfold lookupOrFallback
    rw [hmatch]
  unfold on_text
  rw [if_neg h1, if_neg h2, if_neg h3, if_neg h4]
  rcases hv with hv | hv
  · rw [hv]; exact hlk
  · subst hv
    rcases hdv : detect_variant (stripS msg) with _ | v <;> simp [hlk]

/-! ### Catalog-loading lemmas -/

theorem applyMask_cons (b : Bool) (a : String) (m : List Bool) (l : List String) :
    applyMask (b :: m) (a :: l) = if b then a :: applyMask m l else applyMask m l := by
  unfold applyMask
  rw [List.zip_cons_cons, List.filterMap_cons]
  cases b <;> simp

theorem applyMask_length_congr {mask : List Bool} :
    ∀ {l₁ l₂ : List String}, l₁.length = l₂.length →
      (applyMask mask l₁).length = (applyMask mask l₂).length := by
  induction mask with
  | nil => intro l₁ l₂ _; simp [applyMask]
  | cons b m ih =>
    intro l₁ l₂ h
    cases l₁ with
    | nil =>
      cases l₂ with
      | nil => rfl
      | cons x xs => simp at h
    | cons a as =>
      cases l₂ with
      | nil => simp at h
      | cons x xs =>
        simp only [List.length_cons, Nat.succ.injEq] at h
        rw [applyMask_cons, applyMask_cons]
        cases b
        · simpa using ih h
        · simpa using ih h

theorem Rect_stripNames {t : Table} (h : Rect t) : Rect (stripNames t) := by
  intro r hr
  rw [h r hr]
  unfold stripNames
  simp

theorem Rect_dropUnnamed {t : Table} (h : Rect t) : Rect (dropUnnamed t) := by
  intro r hr
  unfold dropUnnamed at hr ⊢
  simp only [List.mem_map] at hr
  obtain ⟨r0, hr0, rfl⟩ := hr
  exact applyMask_length_congr (h r0 hr0)

theorem Rect_preEnsure {t : Table} (h : Rect t) : Rect (preEnsure t) := by
  intro r hr
  unfold preEnsure at hr ⊢
  simp only at hr ⊢
  rw [(Rect_dropUnnamed (Rect_stripNames h)) r hr]
  unfold applyRenames
  simp

theorem Rect_addCol {c : String} {t : Table} (h : Rect t) : Rect (addCol c t) := by
  unfold addCol
  by_cases hc : c ∈ t.names
  · rw [if_pos hc]; exact h
  · rw [if_neg hc]
    intro r hr
    simp only [List.mem_map] at hr
    obtain ⟨r0, hr0, rfl⟩ := hr
    simp [h r0 hr0]

theorem mem_addCol_self (c : String) (t : Table) : c ∈ (addCol c t).names := by
  unfold addCol
  by_cases hc : c ∈ t.names
  · rw [if_pos hc]; exact hc
  · rw [if_neg hc]; simp

theorem mem_addCol_mono {d : String} (c : String) {t : Table} (h : d ∈ t.names) :
    d ∈ (addCol c t).names := by
  unfold addCol
  by_cases hc : c ∈ t.names
  · rw [if_pos hc]; exact h
  · rw [if_neg hc]; simp [h]

theorem not_mem_addCol {d c : String} {t : Table} (h : d ∉ t.names) (hne : d ≠ c) :
    d ∉ (addCol c t).names := by
  unfold addCol
  by_cases hc : c ∈ t.names
  · rw [if_pos hc]; exact h
  · rw [if_neg hc]
    simp only [List.mem_append, List.mem_singleton]
    rintro (hd | hd)
    · exact h hd
    · exact hne hd

/-- Column `c` exists at position `i` and every row carries `""` there. -/
def colAllEmpty (t : Table) (c : String) : Prop :=
  ∃ i : Nat, t.names[i]? = some c ∧ ∀ r ∈ t.rows, r[i]? = some ""

theorem colAllEmpty_addCol_new {c : String} {t : Table} (hc : c ∉ t.names)
    (hr : Rect t) : colAllEmpty (addCol c t) c := by
  unfold addCol
  rw [if_neg hc]
  refine ⟨t.names.length, List.getElem?_concat_length _ _, ?_⟩
  intro r hmem
  simp only [List.mem_map] at hmem
  obtain ⟨r0, hr0, rfl⟩ := hmem
  have hx := List.getElem?_concat_length r0 ""
  rw [hr r0 hr0] at hx
  exact hx

theorem colAllEmpty_addCol_mono {c d : String} {t : Table} (h : colAllEmpty t c) :
    colAllEmpty (addCol d t) c := by
  obtain ⟨i, hi, hrows⟩ := h
  unfold addCol
  by_cases hd : d ∈ t.names
  · rw [if_pos hd]; exact ⟨i, hi, hrows⟩
  · rw [if_neg hd]
    have hlt : i < t.names.length := by
      by_contra hge
      rw [List.getElem?_eq_none (Nat.le_of_not_lt hge)] at hi
      exact Option.noConfusion hi
    refine ⟨i, by rw [List.getElem?_append_left hlt]; exact hi, ?_⟩
    intro r hmem
    simp only [List.mem_map] at hmem
    obtain ⟨r0, hr0, rfl⟩ := hmem
    have h0 := hrows r0 hr0
    have hlt0 : i < r0.length := by
      by_contra hge
      rw [List.getElem?_eq_none (Nat.le_of_not_lt hge)] at h0
      exact Option.noConfusion h0
    rw [List.getElem?_append_left hlt0]
    exact h0

/-! ## Claim theorems -/

/-- C3, counterexample: on the digit-free input `" a "` the formatter returns
the whitespace-stripped string `"a"`, not the input unchanged as the claim
states. -/
theorem C3_counterexample :
    clean_price_text " a " = "a" ∧ (" a " : String) ≠ "a" ∧
    (" a " : String).data.all (fun c => !c.isDigit) = true := by
  refine ⟨by decide, by decide, by decide⟩

/-- C3 (amended): `clean_price_text` returns `""` on empty or whitespace-only
input; returns the first run of decimal digits concatenated with the fixed
`" triệu"` suffix when the input contains a digit; and returns the
whitespace-**stripped** input (not the input unchanged) when the input
contains no digit. -/
theorem C3_price_format (s : String) :
    ((∀ c ∈ s.data, c.isWhitespace = true) → clean_price_text s = "") ∧
    (∀ d, firstDigitRun s.data = some d →
      clean_price_text s = String.mk (d ++ " triệu".data)) ∧
    (firstDigitRun s.data = none → clean_price_text s = String.mk (pyStrip s.data)) := by
  refine ⟨?_, ?_, ?_⟩
  · intro h
    unfold clean_price_text
    rw [clean_price_list_of_ws h]
  · intro d hd
    unfold clean_price_text
    rw [clean_price_list_of_run hd]
  · intro h
    unfold clean_price_text
    rw [clean_price_list_of_none h]

theorem C3_price_format_witness :
    clean_price_text "   " = "" ∧ clean_price_text "17m" = "17 triệu" ∧
    clean_price_text "abc" = "abc" := by
  refine ⟨(C3_price_format "   ").1 (by decide), ?_, ?_⟩
  · exact ((C3_price_format "17m").2.1 ['1', '7'] (by decide)).trans (by decide)
  · exact ((C3_price_format "abc").2.2 (by decide)).trans (by decide)

/-- C4: `clean_price_text` is idempotent on every non-empty input containing
a decimal digit; in particular re-formatting an already-formatted string does
not double-apply the `" triệu"` suffix. -/
theorem C4_price_idempotent (s : String) (h1 : s ≠ "")
    (h2 : s.data.any Char.isDigit = true) :
    clean_price_text (clean_price_text s) = clean_price_text s := by
  obtain ⟨d, hd⟩ := any_digit_run_isSome h2
  show String.mk (clean_price_list (clean_price_list s.data)) =
    String.mk (clean_price_list s.data)
  rw [clean_price_list_idem hd]

theorem C4_price_idempotent_witness :
    clean_price_text (clean_price_text "17m") = clean_price_text "17m" :=
  C4_price_idempotent "17m" (by decide) (by decide)

/-- C9: on a non-empty catalog the matcher returns the first row for the
empty-string query: the empty query has no code token, and the keyword phase's
lower-cased empty string is contained in every field, so the first row wins. -/
theorem C9_empty_query (rows : List Row) (h : rows ≠ []) :
    find_by_sku_or_keyword "" rows = rows.head? := by
  rcases rows with _ | ⟨r0, rest⟩
  · exact absurd rfl h
  · have htok : find_code_token ("" : String).data = none := rfl
    rw [find_by_keyword_phase htok]
    have hm : rowMatches (lowerStr ("" : String).data) r0 = true := by
      unfold rowMatches
      rw [List.any_eq_true]
      exact ⟨r0.ma, by simp [Row.fields], containsStr_nil _⟩
    rw [List.find?_cons, hm]
    rfl

theorem C9_empty_query_witness :
    find_by_sku_or_keyword "" [demoRow] = some demoRow := by
  have h := C9_empty_query [demoRow] (by decide)
  simpa using h

/-- C2: the code-pattern phase strictly dominates the keyword phase — when the
query contains a code-pattern token and some row's field contains it, the
matcher returns the first such row, and the keyword phase cannot affect the
result; when the query contains no such token the code-pattern phase is
skipped and the result is exactly the keyword phase's. -/
theorem C2_phase_priority (q : String) (rows : List Row) :
    (∀ tok, find_code_token q.data = some tok →
      (∃ r ∈ rows, rowMatches (lowerStr tok) r = true) →
        find_by_sku_or_keyword q rows =
          rows.find? (fun r => rowMatches (lowerStr tok) r) ∧
        (rows.find? (fun r => rowMatches (lowerStr tok) r)).isSome = true) ∧
    (find_code_token q.data = none →
      find_by_sku_or_keyword q rows =
        rows.find? (fun r => rowMatches (lowerStr q.data) r)) :=
  ⟨fun _ htok hex => find_by_token_phase htok hex, fun h => find_by_keyword_phase h⟩

theorem C2_phase_priority_witness :
    find_by_sku_or_keyword "Ace2187" [c2Row] = some c2Row ∧
    find_by_sku_or_keyword "cue tip" [c2Row] =
      [c2Row].find? (fun r => rowMatches (lowerStr ("cue tip" : String).data) r) := by
  constructor
  · have h := (C2_phase_priority "Ace2187" [c2Row]).1 ("Ace2187" : String).data
      (by decide) ⟨c2Row, by decide, by decide⟩
    exact h.1.trans (by decide)
  · exact (C2_phase_priority "cue tip" [c2Row]).2 (by decide)

/-- C1, counterexample: querying with the exact code `"Exc-0601"` of the
second row returns the **first** row, even though none of its fields contains
the code as a substring — the matcher searched for the extracted digit token
`"0601"` instead (and the code is made only of regex-literal characters, so
this is not a regex artifact). -/
theorem C1_counterexample :
    find_by_sku_or_keyword "Exc-0601" [cexRowA, cexRowB] = some cexRowA ∧
    cexRowA ≠ cexRowB ∧
    rowMatches (lowerStr ("Exc-0601" : String).data) cexRowA = false ∧
    cexRowB.ma = "Exc-0601" ∧
    litStr "Exc-0601" = true := by
  refine ⟨by decide, by decide, by decide, by decide, by decide⟩

/-- C1 (amended): querying with a catalog row's exact code returns that row or
an earlier row, some field of which contains — case-insensitively — the
matcher's effective key for that code: its first code-pattern token when one
exists, else the whole code.  (The `litStr` hypothesis restricts to codes of
regex-literal characters, on which the embedding's substring model of
`pandas.str.contains` is faithful.) -/
theorem C1_exact_code_lookup (rows : List Row) (i : Nat) (r : Row)
    (hget : rows[i]? = some r) (hlit : litStr r.ma = true) :
    ∃ j r', j ≤ i ∧ rows[j]? = some r' ∧
      find_by_sku_or_keyword r.ma rows = some r' ∧
      rowMatches (matchKey r.ma) r' = true := by
  rcases htok : find_code_token r.ma.data with _ | tok
  · have hp : rowMatches (lowerStr r.ma.data) r = true := by
      have hk := rowMatches_matchKey_self r
      unfold matchKey at hk
      rw [htok] at hk
      exact hk
    obtain ⟨j, r', hj, hg, hf, hpr⟩ := find?_first rows i r hget hp
    refine ⟨j, r', hj, hg, ?_, ?_⟩
    · rw [find_by_keyword_phase htok, hf]
    · unfold matchKey
      rw [htok]
      exact hpr
  · have hp : rowMatches (lowerStr tok) r = true := by
      have hk := rowMatches_matchKey_self r
      unfold matchKey at hk
      rw [htok] at hk
      exact hk
    obtain ⟨j, r', hj, hg, hf, hpr⟩ := find?_first rows i r hget hp
    have hex : ∃ rr ∈ rows, rowMatches (lowerStr tok) rr = true :=
      ⟨r, List.getElem?_mem hget, hp⟩
    obtain ⟨heq, _⟩ := find_by_token_phase htok hex
    refine ⟨j, r', hj, hg, ?_, ?_⟩
    · rw [heq, hf]
    · unfold matchKey
      rw [htok]
      exact hpr

theorem C1_exact_code_lookup_witness :
    find_by_sku_or_keyword "Exc0601" [demoRow] = some demoRow := by
  obtain ⟨j, r', hj, hg, hf, _⟩ :=
    C1_exact_code_lookup [demoRow] 0 demoRow (by decide) (by decide)
  have hj0 := Nat.le_zero.mp hj
  subst hj0
  simp only [List.getElem?_cons_zero, Option.some.injEq] at hg
  show find_by_sku_or_keyword demoRow.ma [demoRow] = some demoRow
  rw [hf, ← hg]

/-- C5: on a non-empty row set, `build_catalog_page` clamps the requested page
into `[1, ⌈total/10⌉]` with fixed page size 10; the previous affordance is
present exactly when the clamped page exceeds 1 and the next affordance
exactly when it is below the last page; over 25 rows, page 1 has next/no
previous, page 3 has previous/no next, and page 99 renders as page 3. -/
theorem C5_pagination (rows : List Row) (page : Int) (h : rows ≠ []) :
    build_catalog_page rows page =
      build_catalog_page rows
        (max 1 (min page (((rows.length : Int) + PAGE_SIZE - 1) / PAGE_SIZE))) ∧
    (build_catalog_page rows page).hasPrev =
      decide (1 < max 1 (min page (((rows.length : Int) + PAGE_SIZE - 1) / PAGE_SIZE))) ∧
    (build_catalog_page rows page).hasNext =
      decide (max 1 (min page (((rows.length : Int) + PAGE_SIZE - 1) / PAGE_SIZE)) <
        ((rows.length : Int) + PAGE_SIZE - 1) / PAGE_SIZE) ∧
    (rows.length = 25 →
      (build_catalog_page rows 1).hasNext = true ∧
      (build_catalog_page rows 1).hasPrev = false ∧
      (build_catalog_page rows 3).hasPrev = true ∧
      (build_catalog_page rows 3).hasNext = false ∧
      build_catalog_page rows 99 = build_catalog_page rows 3) := by
  have hlen : rows.length ≠ 0 := fun h0 => h (List.length_eq_zero.mp h0)
  have hm1 : (1 : Int) ≤ ((rows.length : Int) + PAGE_SIZE - 1) / PAGE_SIZE := by
    have hpos : rows.length ≠ 0 := hlen
    unfold PAGE_SIZE
    omega
  refine ⟨?_, ?_, ?_, ?_⟩
  · unfold build_catalog_page
    rw [if_neg hlen, if_neg hlen]
    congr 1
    omega
  · unfold build_catalog_page render_page
    rw [if_neg hlen]
  · unfold build_catalog_page render_page
    rw [if_neg hlen]
  · intro h25
    have hm3 : ((rows.length : Int) + PAGE_SIZE - 1) / PAGE_SIZE = 3 := by
      rw [h25]; decide
    refine ⟨?_, ?_, ?_, ?_, ?_⟩
    · unfold build_catalog_page render_page
      rw [if_neg hlen, hm3]
      rfl
    · unfold build_catalog_page render_page
      rw [if_neg hlen, hm3]
      rfl
    · unfold build_catalog_page render_page
      rw [if_neg hlen, hm3]
      rfl
    · unfold build_catalog_page render_page
      rw [if_neg hlen, hm3]
      rfl
    · unfold build_catalog_page
      rw [if_neg hlen, if_neg hlen]
      congr 1
      rw [hm3]
      decide

theorem C5_pagination_witness :
    (build_catalog_page (List.replicate 25 demoRow) 1).hasNext = true ∧
    (build_catalog_page (List.replicate 25 demoRow) 1).hasPrev = false ∧
    (build_catalog_page (List.replicate 25 demoRow) 3).hasPrev = true ∧
    (build_catalog_page (List.replicate 25 demoRow) 3).hasNext = false ∧
    build_catalog_page (List.replicate 25 demoRow) 99 =
      build_catalog_page (List.replicate 25 demoRow) 3 :=
  (C5_pagination (List.replicate 25 demoRow) 1 (by decide)).2.2.2 (by decide)

/-- C6: whatever the parse produced (including none, when every encoding
attempt failed), the loaded catalog has the three canonical columns on every
row — defaulted to the empty string wherever the source column was absent —
and a total parse failure yields the catalog with the canonical columns and
no rows, with `load_catalog` returning normally. -/
theorem C6_load_normalization (parsed : Option Table)
    (hrect : ∀ t0, parsed = some t0 → Rect t0) :
    (∀ c ∈ canonicalCols, c ∈ (load_catalog parsed).names) ∧
    Rect (load_catalog parsed) ∧
    (∀ c ∈ canonicalCols,
      c ∉ (preEnsure (parsed.getD { names := [], rows := [] })).names →
        colAllEmpty (load_catalog parsed) c) ∧
    (parsed = none → load_catalog parsed = { names := canonicalCols, rows := [] }) := by
  have hrb : Rect (preEnsure (parsed.getD { names := [], rows := [] })) := by
    apply Rect_preEnsure
    rcases parsed with _ | t0
    · intro r hr
      exact absurd hr (by simp)
    · exact hrect t0 rfl
  have hload : load_catalog parsed =
      addCol "cao_cap" (addCol "hang_thuong"
        (addCol "ma" (preEnsure (parsed.getD { names := [], rows := [] })))) := rfl
  refine ⟨?_, ?_, ?_, ?_⟩
  · intro c hc
    rw [hload]
    simp only [canonicalCols, List.mem_cons, List.mem_singleton] at hc
    rcases hc with rfl | rfl | rfl | hc
    · exact mem_addCol_mono _ (mem_addCol_mono _ (mem_addCol_self _ _))
    · exact mem_addCol_mono _ (mem_addCol_self _ _)
    · exact mem_addCol_self _ _
    · exact absurd hc (by simp)
  · rw [hload]
    exact Rect_addCol (Rect_addCol (Rect_addCol hrb))
  · intro c hc hnot
    rw [hload]
    simp only [canonicalCols, List.mem_cons, List.mem_singleton] at hc
    rcases hc with rfl | rfl | rfl | hc
    · exact colAllEmpty_addCol_mono (colAllEmpty_addCol_mono
        (colAllEmpty_addCol_new hnot hrb))
    · exact colAllEmpty_addCol_mono (colAllEmpty_addCol_new
        (not_mem_addCol hnot (by decide)) (Rect_addCol hrb))
    · exact colAllEmpty_addCol_new
        (not_mem_addCol (not_mem_addCol hnot (by decide)) (by decide))
        (Rect_addCol (Rect_addCol hrb))
    · exact absurd hc (by simp)
  · rintro rfl
    rfl

theorem C6_load_normalization_witness :
    ("hang_thuong" ∈ (load_catalog (some demoTable)).names) ∧
    colAllEmpty (load_catalog (some demoTable)) "cao_cap" ∧
    load_catalog none = { names := canonicalCols, rows := [] } := by
  have h1 := C6_load_normalization (some demoTable) (by intro t0 ht; cases ht; decide)
  have h2 := C6_load_normalization none (fun t0 ht => nomatch ht)
  exact ⟨h1.1 "hang_thuong" (by decide), h1.2.2.1 "cao_cap" (by decide) (by decide),
    h2.2.2.2 rfl⟩

/-- C7, counterexample: with `"Exc0601"` recorded, the message `"premium"` is
not in the variant detector's vocabulary (which is `"cao cấp"`/`"cao cap"` and
`"thường"`/`"thuong"`), so the router sends the fallback prompt and does not
clear the recorded product — contradicting the claim's instantiation that
`"premium"` produces the handoff. -/
theorem C7_counterexample :
    on_text "premium" (some "Exc0601") [demoRow] = (FALLBACK_TEXT, some "Exc0601") ∧
    detect_variant "premium" = none := by
  refine ⟨by decide, by decide⟩

/-- C7 (amended): whenever the variant detector classifies a non-menu message
as a tier — its vocabulary being the Vietnamese tier words, e.g. `"cao cấp"`
rather than `"premium"` — and a non-empty product code is recorded, the router
replies with the contact handoff naming the chosen tier and the remembered
code, and clears the recorded product. -/
theorem C7_variant_handoff (msg code : String) (catalog : List Row) (v : String)
    (hm : NotMenu (stripS msg)) (hv : detect_variant (stripS msg) = some v)
    (hc : code ≠ "") :
    on_text msg (some code) catalog = (handoff_text v code, none) :=
  on_text_handoff hm hv hc

theorem C7_variant_handoff_witness :
    on_text "cao cấp" (some "Exc0601") [demoRow] =
      (handoff_text "cao_cap" "Exc0601", none) ∧
    handoff_text "cao_cap" "Exc0601" =
      "Bạn chọn Cao cấp cho Exc0601.\n\n📞 *Liên hệ chốt đơn*\nTelegram: @eccues\nFacebook: https://www.facebook.com/ord.exc" := by
  refine ⟨C7_variant_handoff "cao cấp" "Exc0601" [demoRow] "cao_cap"
    (by decide) (by decide) (by decide), by decide⟩

/-- C8: a message equal to any of the four fixed menu labels produces the
corresponding static or catalog reply and leaves the recorded product
unchanged, in every state. -/
theorem C8_menu_frame (st : Option String) (catalog : List Row) :
    on_text MENU_catalog st catalog = ((build_catalog_page catalog 1).text, st) ∧
    on_text MENU_warranty st catalog = (WARRANTY_TEXT, st) ∧
    on_text MENU_leadtime st catalog = (LEADTIME_TEXT, st) ∧
    on_text MENU_contact st catalog = (CONTACT_TEXT, st) := by
  have h1 : stripS MENU_catalog = MENU_catalog := by decide
  have h2 : stripS MENU_warranty = MENU_warranty := by decide
  have h3 : stripS MENU_leadtime = MENU_leadtime := by decide
  have h4 : stripS MENU_contact = MENU_contact := by decide
  refine ⟨?_, ?_, ?_, ?_⟩
  · unfold on_text
    rw [h1, if_pos rfl]
  · unfold on_text
    rw [h2, if_neg (by decide), if_pos rfl]
  · unfold on_text
    rw [h3, if_neg (by decide), if_neg (by decide), if_pos rfl]
  · unfold on_text
    rw [h4, if_neg (by decide), if_neg (by decide), if_neg (by decide), if_pos rfl]

/-- C10: on the fallback path — non-menu message, no tier detected or no
product recorded, and no matcher hit — the router sends the fixed short
fallback prompt and leaves the recorded product unchanged; consequently a
pending product survives the unrecognized message and a later variant word
still triggers its handoff. -/
theorem C10_fallback_frame (msg : String) (st : Option String) (catalog : List Row)
    (hm : NotMenu (stripS msg))
    (hv : detect_variant (stripS msg) = none ∨ st = none)
    (hmatch : find_by_sku_or_keyword (stripS msg) catalog = none) :
    on_text msg st catalog = (FALLBACK_TEXT, st) ∧
    (∀ code msg2 v, st = some code → code ≠ "" → NotMenu (stripS msg2) →
      detect_variant (stripS msg2) = some v →
        on_text msg2 (on_text msg st catalog).2 catalog = (handoff_text v code, none)) := by
  have hfb := on_text_fallback hm hv hmatch
  refine ⟨hfb, ?_⟩
  intro code msg2 v hst hc hm2 hv2
  rw [hfb]
  show on_text msg2 st catalog = (handoff_text v code, none)
  subst hst
  exact on_text_handoff hm2 hv2 hc

theorem C10_fallback_frame_witness :
    on_text "hello" (some "Exc0601") [demoRow] = (FALLBACK_TEXT, some "Exc0601") ∧
    on_text "thuong" (on_text "hello" (some "Exc0601") [demoRow]).2 [demoRow] =
      (handoff_text "hang_thuong" "Exc0601", none) := by
  have h := C10_fallback_frame "hello" (some "Exc0601") [demoRow] (by decide)
    (Or.inl (by decide)) (by decide)
  exact ⟨h.1, h.2 "Exc0601" "thuong" "hang_thuong" rfl (by decide) (by decide) (by decide)⟩

end Eccues
